import Mathlib

/-!
Shallow embedding of `src/pkg/controller/hpa/hpa_controller.go`, the HPA
annotation reconciliation controller.  Go maps of type `map[string]string`
are modelled as association lists in which an assignment `m[k] = v`
removes any earlier binding of `k` and puts the new binding in front, so
that every key occurs at most once, exactly as in a Go map.  A nil map is
`Option.none`.  The nil-pointer dereference that Go performs when
`metric.Resource.Target.AverageUtilization` is nil is modelled by the
`Except.error` branch of `annotations`: reaching it corresponds to a
runtime panic of the process.
-/

namespace Hpa

/-- Go map read `m[k]`: the value of the (unique) binding of `k`, if any. -/
def annLookup : List (String × String) → String → Option String
  | [], _ => none
  | (k, v) :: rest, key => if key = k then some v else annLookup rest key

/-- Remove every binding of key `k` (helper for Go map assignment). -/
def removeKey : List (String × String) → String → List (String × String)
  | [], _ => []
  | (k, v) :: rest, key => if k = key then removeKey rest key else (k, v) :: removeKey rest key

/-- Go map assignment `m[k] = v`: overwrite any existing binding of `k`. -/
def mapInsert (m : List (String × String)) (k v : String) : List (String × String) :=
  (k, v) :: removeKey m k

/-- Every key occurs at most once in the list (holds for all lists built
by `mapInsert`, i.e. for all lists that model Go maps). -/
def keysNodupB : List (String × String) → Bool
  | [] => true
  | (k, _) :: rest => (annLookup rest k).isNone && keysNodupB rest

/-- `metric.Resource.Target` of the autoscaling/v2 API: only the
`AverageUtilization *int32` field is read by the controller; the pointer is
an `Option`. -/
structure MetricTarget where
  averageUtilization : Option Int
deriving DecidableEq, Repr

/-- `metric.Resource` of the autoscaling/v2 API: resource name (`cpu`,
`memory`, ...) and target. -/
structure ResourceMetricSource where
  name : String
  target : MetricTarget
deriving DecidableEq, Repr

/-- One entry of `hpa.Spec.Metrics`: the controller only inspects the
`Resource` field (nil for metrics of other kinds). -/
structure MetricSpec where
  resource : Option ResourceMetricSource
deriving DecidableEq, Repr

/-- `hpa.Spec`: the controller only reads `Metrics`. -/
structure HPASpec where
  metrics : List MetricSpec
deriving DecidableEq, Repr

/-- A HorizontalPodAutoscaler resource, restricted to the fields the
controller reads or writes.  `annotations = none` models a nil
`ObjectMeta.Annotations` map. -/
structure HorizontalPodAutoscaler where
  ns : String
  name : String
  annotations : Option (List (String × String))
  spec : HPASpec
deriving DecidableEq, Repr

/-- `v1.ResourceCPU`. -/
def ResourceCPU : String := "cpu"

/-- `v1.ResourceMemory`. -/
def ResourceMemory : String := "memory"

/-- `maxRetries = 15`: retries before a key is dropped out of the queue. -/
def maxRetries : Nat := 15

/-- The `for _, metric := range hpa.Spec.Metrics` loop of `annotations`.
`Except.error ()` is the nil-pointer dereference panic that Go performs
when a cpu- or memory-named resource metric has `AverageUtilization` nil
(`*metric.Resource.Target.AverageUtilization` with a nil pointer). -/
def annotationsLoop : List MetricSpec → List (String × String) → Except Unit (List (String × String))
  | [], m => Except.ok m
  | metric :: rest, m =>
    match metric.resource with
    | none => annotationsLoop rest m
    | some r =>
      if r.name = ResourceCPU then
        match r.target.averageUtilization with
        | none => Except.error ()
        | some u => annotationsLoop rest (mapInsert m "cpuTargetUtilization" (toString u))
      else if r.name = ResourceMemory then
        match r.target.averageUtilization with
        | none => Except.error ()
        | some u => annotationsLoop rest (mapInsert m "memoryTargetValue" (toString u))
      else annotationsLoop rest m

/-- `func (v *HPAController) annotations(hpa *v2.HorizontalPodAutoscaler) map[string]string`:
returns nil (here `[]`, indistinguishable through `len`/lookup) when the
spec has no metrics, otherwise the map built by the loop.  `Except.error`
is a panic. -/
def annotations (hpa : HorizontalPodAutoscaler) : Except Unit (List (String × String)) :=
  if hpa.spec.metrics.length = 0 then Except.ok []
  else annotationsLoop hpa.spec.metrics []

/-- `strings.Split` on a one-character separator, over the character
list of the string: splitting the empty string yields one empty part. -/
def splitOnChar (c : Char) : List Char → List (List Char)
  | [] => [[]]
  | ch :: rest =>
    match splitOnChar c rest with
    | [] => if ch = c then [[], []] else [[ch]]
    | first :: others =>
      if ch = c then [] :: first :: others
      else (ch :: first) :: others

/-- `cache.SplitMetaNamespaceKey` (the result of
`strings.Split(key, "/")` decides): one part means name only, two parts
mean namespace and name, anything else is an error. -/
def splitMetaNamespaceKey (key : String) : Except Unit (String × String) :=
  match (splitOnChar '/' key.data).map (fun l => String.mk l) with
  | [name] => Except.ok ("", name)
  | [ns, name] => Except.ok (ns, name)
  | _ => Except.error ()

/-- Outcome of `v.hpaLister.HorizontalPodAutoscalers(namespace).Get(name)`. -/
inductive GetResult
  | found (hpa : HorizontalPodAutoscaler)
  | notFound
  | getError
deriving DecidableEq

/-- The external collaborators of one sync: the lister lookup and whether
the remote `Update` call fails on a given submitted object. -/
structure SyncEnv where
  lister : String → String → GetResult
  updateFails : HorizontalPodAutoscaler → Bool

/-- Return value of `syncHPA`: nil error, one of the propagated errors, or
a panic (nil-pointer dereference inside `annotations`). -/
inductive SyncRet
  | ok
  | errSplit
  | errGet
  | errUpdate
  | panicked
deriving DecidableEq, Repr

/-- Result of one `syncHPA` call: its return value together with the list
of remote `Update` calls it issued (each carrying the submitted object). -/
structure SyncResult where
  ret : SyncRet
  updates : List HorizontalPodAutoscaler
deriving DecidableEq

/-- The `for key, value := range annotationsMaps` merge loop of `syncHPA`:
assign every computed binding into the copy's annotation map. -/
def mergeAnn (base : List (String × String)) (am : List (String × String)) : List (String × String) :=
  am.foldl (fun acc kv => mapInsert acc kv.1 kv.2) base

/-- `func (v *HPAController) syncHPA(key string) error`: split the key,
look the resource up (not-found is success), deep-copy, compute the
annotations, merge them into the copy when non-empty (creating the map if
nil), then issue the remote update unconditionally and propagate its
error. -/
def syncHPA (env : SyncEnv) (key : String) : SyncResult :=
  match splitMetaNamespaceKey key with
  | Except.error _ => { ret := SyncRet.errSplit, updates := [] }
  | Except.ok (ns, name) =>
    match env.lister ns name with
    | GetResult.notFound => { ret := SyncRet.ok, updates := [] }
    | GetResult.getError => { ret := SyncRet.errGet, updates := [] }
    | GetResult.found hpa =>
      match annotations hpa with
      | Except.error _ => { ret := SyncRet.panicked, updates := [] }
      | Except.ok am =>
        let hpaCopyed :=
          if am.length ≠ 0 then
            { hpa with annotations := some (mergeAnn (hpa.annotations.getD []) am) }
          else hpa
        if env.updateFails hpaCopyed then { ret := SyncRet.errUpdate, updates := [hpaCopyed] }
        else { ret := SyncRet.ok, updates := [hpaCopyed] }

/-- The work-queue operations `handleErr` can invoke on the key. -/
inductive QueueAction
  | forget
  | addRateLimited
  | handleErrSink
deriving DecidableEq, Repr

/-- `func (v *HPAController) handleErr(err error, key interface{})`:
nil error forgets the key; an error below the retry ceiling re-adds it
rate-limited; at the ceiling the key is forgotten and the error reported
to `utilruntime.HandleError`.  `numRequeues` is the queue's current retry
counter for the key. -/
def handleErr (errored : Bool) (numRequeues : Nat) : List QueueAction :=
  if errored = false then [QueueAction.forget]
  else if numRequeues < maxRetries then [QueueAction.addRateLimited]
  else [QueueAction.forget, QueueAction.handleErrSink]

/-- Modelled from the spec: the work queue's per-key retry counter
semantics (the queue implementation is an external collaborator, not in
the source tree): `forget(key)` resets the key's retry counter to zero,
`addRateLimited(key)` increments it.  This folds those semantics over the
actions `handleErr` performs, giving the counter after the call. -/
def counterAfter (errored : Bool) (n : Nat) : Nat :=
  (handleErr errored n).foldl
    (fun c a =>
      match a with
      | QueueAction.forget => 0
      | QueueAction.addRateLimited => c + 1
      | QueueAction.handleErrSink => c) n

/-- Result of `Run`: the returned error (if any) and how many worker
loops were launched before returning or blocking on the stop channel. -/
structure RunResult where
  error : Option String
  workersStarted : Nat
deriving DecidableEq, Repr

/-- `func (v *HPAController) Run(workers int, stopCh <-chan struct{}) error`:
if the cache-sync wait fails, return the explicit error before launching
any worker; otherwise launch `workers` workers. -/
def Run (workers : Nat) (cacheSynced : Bool) : RunResult :=
  if cacheSynced then { error := none, workersStarted := workers }
  else { error := some "failed to wait for caches to sync", workersStarted := 0 }

/-- The target average-utilization of the last resource metric named `nm`
in the list (in list order), used to state which value an annotation key
ends up with. -/
def lastAvg (nm : String) : List MetricSpec → Option Int
  | [] => none
  | metric :: rest =>
    match lastAvg nm rest with
    | some u => some u
    | none =>
      match metric.resource with
      | some r => if r.name = nm then r.target.averageUtilization else none
      | none => none

/-- Left-biased choice on options, used to state lookup-after-merge. -/
def orElseO (a b : Option String) : Option String :=
  match a with
  | some v => some v
  | none => b

theorem orElseO_none_right (a : Option String) : orElseO a none = a := by
  cases a <;> rfl

theorem annLookup_removeKey_self (l : List (String × String)) (k : String) :
    annLookup (removeKey l k) k = none := by
  induction l with
  | nil => rfl
  | cons kv rest ih =>
    obtain ⟨k0, v0⟩ := kv
    by_cases h : k0 = k
    · simp [removeKey, h, ih]
    · simp [removeKey, h, annLookup, Ne.symm h, ih]

theorem annLookup_removeKey_ne (l : List (String × String)) (k k' : String)
    (h : k' ≠ k) : annLookup (removeKey l k) k' = annLookup l k' := by
  induction l with
  | nil => rfl
  | cons kv rest ih =>
    obtain ⟨k0, v0⟩ := kv
    by_cases h0 : k0 = k
    · subst h0
      simp [removeKey, annLookup, h, ih]
    · by_cases h1 : k' = k0
      · simp [removeKey, h0, annLookup, h1]
      · simp [removeKey, h0, annLookup, h1, ih]

theorem annLookup_mapInsert (l : List (String × String)) (k v k' : String) :
    annLookup (mapInsert l k v) k' = if k' = k then some v else annLookup l k' := by
  by_cases h : k' = k
  · simp [mapInsert, annLookup, h]
  · simp [mapInsert, annLookup, h, annLookup_removeKey_ne l k k' h]

theorem annLookup_removeKey_none (l : List (String × String)) (k k' : String)
    (h : annLookup l k' = none) : annLookup (removeKey l k) k' = none := by
  by_cases hk : k' = k
  · subst hk; exact annLookup_removeKey_self l k'
  · rw [annLookup_removeKey_ne l k k' hk]; exact h

theorem keysNodupB_removeKey (l : List (String × String)) (k : String)
    (h : keysNodupB l = true) : keysNodupB (removeKey l k) = true := by
  induction l with
  | nil => rfl
  | cons kv rest ih =>
    obtain ⟨k0, v0⟩ := kv
    simp only [keysNodupB, Bool.and_eq_true, Option.isNone_iff_eq_none] at h
    by_cases h0 : k0 = k
    · simp [removeKey, h0, ih h.2]
    · simp only [removeKey, h0, if_neg h0, keysNodupB, Bool.and_eq_true,
        Option.isNone_iff_eq_none]
      exact ⟨annLookup_removeKey_none rest k k0 h.1, ih h.2⟩

theorem keysNodupB_mapInsert (l : List (String × String)) (k v : String)
    (h : keysNodupB l = true) : keysNodupB (mapInsert l k v) = true := by
  simp only [mapInsert, keysNodupB, Bool.and_eq_true, Option.isNone_iff_eq_none]
  exact ⟨annLookup_removeKey_self l k, keysNodupB_removeKey l k h⟩

/-- Lookup after the merge loop: a key bound in the computed map gets the
computed value, any other key keeps its value from the base map. -/
theorem annLookup_mergeAnn (m : List (String × String)) :
    ∀ base k, keysNodupB m = true →
      annLookup (mergeAnn base m) k = orElseO (annLookup m k) (annLookup base k) := by
  induction m with
  | nil => intro base k _; rfl
  | cons kv rest ih =>
    intro base k h
    obtain ⟨k0, v0⟩ := kv
    simp only [keysNodupB, Bool.and_eq_true, Option.isNone_iff_eq_none] at h
    have hstep : mergeAnn base ((k0, v0) :: rest) = mergeAnn (mapInsert base k0 v0) rest := rfl
    rw [hstep, ih (mapInsert base k0 v0) k h.2]
    by_cases hk : k = k0
    · subst hk
      simp [annLookup, h.1, orElseO, annLookup_mapInsert]
    · simp [annLookup, hk, annLookup_removeKey_ne base k0 k hk]

theorem lastAvg_cons_none (nm : String) (mt : MetricSpec) (rest : List MetricSpec)
    (hr : mt.resource = none) : lastAvg nm (mt :: rest) = lastAvg nm rest := by
  cases h : lastAvg nm rest <;> simp [lastAvg, hr, h]

theorem lastAvg_cons_other (nm : String) (mt : MetricSpec) (rest : List MetricSpec)
    (r : ResourceMetricSource) (hr : mt.resource = some r) (hn : r.name ≠ nm) :
    lastAvg nm (mt :: rest) = lastAvg nm rest := by
  cases h : lastAvg nm rest <;> simp [lastAvg, hr, h, hn]

theorem lastAvg_cons_match (nm : String) (mt : MetricSpec) (rest : List MetricSpec)
    (r : ResourceMetricSource) (hr : mt.resource = some r) (hn : r.name = nm) :
    lastAvg nm (mt :: rest) =
      match lastAvg nm rest with
      | some u => some u
      | none => r.target.averageUtilization := by
  cases h : lastAvg nm rest <;> simp [lastAvg, hr, h, hn]

/-- Full characterization of the annotation loop: when it does not panic,
the cpu key holds the (stringified) target of the last cpu resource
metric, the memory key that of the last memory resource metric, and every
other key is untouched. -/
theorem annotationsLoop_spec (metrics : List MetricSpec) :
    ∀ acc m, annotationsLoop metrics acc = Except.ok m →
      annLookup m "cpuTargetUtilization" =
        orElseO ((lastAvg ResourceCPU metrics).map (fun u => toString u))
          (annLookup acc "cpuTargetUtilization") ∧
      annLookup m "memoryTargetValue" =
        orElseO ((lastAvg ResourceMemory metrics).map (fun u => toString u))
          (annLookup acc "memoryTargetValue") ∧
      (∀ k, k ≠ "cpuTargetUtilization" → k ≠ "memoryTargetValue" →
        annLookup m k = annLookup acc k) := by
  induction metrics with
  | nil =>
    intro acc m h
    simp only [annotationsLoop, Except.ok.injEq] at h
    subst h
    simp [lastAvg, orElseO]
  | cons mt rest ih =>
    intro acc m h
    cases hr : mt.resource with
    | none =>
      have h' : annotationsLoop rest acc = Except.ok m := by
        simpa [annotationsLoop, hr] using h
      rw [lastAvg_cons_none ResourceCPU mt rest hr, lastAvg_cons_none ResourceMemory mt rest hr]
      exact ih acc m h'
    | some r =>
      by_cases hc : r.name = ResourceCPU
      · cases hu : r.target.averageUtilization with
        | none => simp [annotationsLoop, hr, hc, hu] at h
        | some u =>
          have h' : annotationsLoop rest (mapInsert acc "cpuTargetUtilization" (toString u)) =
              Except.ok m := by
            simpa [annotationsLoop, hr, hc, hu] using h
          obtain ⟨h1, h2, h3⟩ := ih _ m h'
          rw [lastAvg_cons_match ResourceCPU mt rest r hr hc, hu,
            lastAvg_cons_other ResourceMemory mt rest r hr (by rw [hc]; decide)]
          refine ⟨?_, ?_, ?_⟩
          · rw [h1, annLookup_mapInsert]
            cases hL : lastAvg ResourceCPU rest <;> simp [orElseO]
          · rw [h2, annLookup_mapInsert]
            simp
          · intro k hk1 hk2
            rw [h3 k hk1 hk2, annLookup_mapInsert, if_neg hk1]
      · by_cases hm2 : r.name = ResourceMemory
        · cases hu : r.target.averageUtilization with
          | none => simp [annotationsLoop, hr, hc, hm2, hu] at h
          | some u =>
            have h' : annotationsLoop rest (mapInsert acc "memoryTargetValue" (toString u)) =
                Except.ok m := by
              simpa [annotationsLoop, hr, hc, hm2, hu] using h
            obtain ⟨h1, h2, h3⟩ := ih _ m h'
            rw [lastAvg_cons_match ResourceMemory mt rest r hr hm2, hu,
              lastAvg_cons_other ResourceCPU mt rest r hr (by rw [hm2]; decide)]
            refine ⟨?_, ?_, ?_⟩
            · rw [h1, annLookup_mapInsert]
              simp
            · rw [h2, annLookup_mapInsert]
              cases hL : lastAvg ResourceMemory rest <;> simp [orElseO]
            · intro k hk1 hk2
              rw [h3 k hk1 hk2, annLookup_mapInsert, if_neg hk2]
        · have h' : annotationsLoop rest acc = Except.ok m := by
            simpa [annotationsLoop, hr, hc, hm2] using h
          rw [lastAvg_cons_other ResourceCPU mt rest r hr hc,
            lastAvg_cons_other ResourceMemory mt rest r hr hm2]
          exact ih acc m h'

/-- The annotation loop only builds well-formed maps (each key bound once). -/
theorem annotationsLoop_nodup (metrics : List MetricSpec) :
    ∀ acc m, keysNodupB acc = true → annotationsLoop metrics acc = Except.ok m →
      keysNodupB m = true := by
  induction metrics with
  | nil =>
    intro acc m ha h
    simp only [annotationsLoop, Except.ok.injEq] at h
    subst h
    exact ha
  | cons mt rest ih =>
    intro acc m ha h
    cases hr : mt.resource with
    | none => exact ih acc m ha (by simpa [annotationsLoop, hr] using h)
    | some r =>
      by_cases hc : r.name = ResourceCPU
      · cases hu : r.target.averageUtilization with
        | none => simp [annotationsLoop, hr, hc, hu] at h
        | some u =>
          exact ih _ m (keysNodupB_mapInsert acc _ _ ha)
            (by simpa [annotationsLoop, hr, hc, hu] using h)
      · by_cases hm2 : r.name = ResourceMemory
        · cases hu : r.target.averageUtilization with
          | none => simp [annotationsLoop, hr, hc, hm2, hu] at h
          | some u =>
            exact ih _ m (keysNodupB_mapInsert acc _ _ ha)
              (by simpa [annotationsLoop, hr, hc, hm2, hu] using h)
        · exact ih acc m ha (by simpa [annotationsLoop, hr, hc, hm2] using h)

/-- Characterization of `annotations` on a non-panicking resource. -/
theorem annotations_spec (hpa : HorizontalPodAutoscaler) (m : List (String × String))
    (h : annotations hpa = Except.ok m) :
    annLookup m "cpuTargetUtilization" =
      (lastAvg ResourceCPU hpa.spec.metrics).map (fun u => toString u) ∧
    annLookup m "memoryTargetValue" =
      (lastAvg ResourceMemory hpa.spec.metrics).map (fun u => toString u) ∧
    (∀ k, k ≠ "cpuTargetUtilization" → k ≠ "memoryTargetValue" → annLookup m k = none) ∧
    keysNodupB m = true := by
  by_cases h0 : hpa.spec.metrics.length = 0
  · have hm : (Except.ok [] : Except Unit (List (String × String))) = Except.ok m := by
      simpa [annotations, h0] using h
    simp only [Except.ok.injEq] at hm
    rw [List.length_eq_zero] at h0
    subst hm
    simp [h0, lastAvg, annLookup, keysNodupB]
  · have h' : annotationsLoop hpa.spec.metrics [] = Except.ok m := by
      simpa [annotations, h0] using h
    obtain ⟨h1, h2, h3⟩ := annotationsLoop_spec hpa.spec.metrics [] m h'
    refine ⟨?_, ?_, ?_, annotationsLoop_nodup hpa.spec.metrics [] m rfl h'⟩
    · simpa [annLookup, orElseO_none_right] using h1
    · simpa [annLookup, orElseO_none_right] using h2
    · intro k hk1 hk2
      simpa [annLookup] using h3 k hk1 hk2

/-- What `syncHPA` submits to the remote update when the resource is
found and `annotations` does not panic: the deep copy, with the computed
map merged in when it is non-empty. -/
theorem syncHPA_found_updates (env : SyncEnv) (key ns nm : String)
    (hpa : HorizontalPodAutoscaler) (m : List (String × String))
    (hkey : splitMetaNamespaceKey key = Except.ok (ns, nm))
    (hget : env.lister ns nm = GetResult.found hpa)
    (hm : annotations hpa = Except.ok m) :
    (syncHPA env key).updates =
      [if m.length ≠ 0 then
        { hpa with annotations := some (mergeAnn (hpa.annotations.getD []) m) }
      else hpa] := by
  simp only [syncHPA, hkey, hget, hm]
  split <;> split <;> rfl

/-- Whether a metric spec entry is a resource metric of kind `nmKind`. -/
def isResourceKind (nmKind : String) (mt : MetricSpec) : Bool :=
  match mt.resource with
  | some r => r.name == nmKind
  | none => false

/-! Concrete resources and environments used to instantiate the theorems. -/

/-- A resource whose spec has no metrics. -/
def hpaEmpty : HorizontalPodAutoscaler :=
  { ns := "default", name := "empty", annotations := none, spec := { metrics := [] } }

/-- Cache holding `hpaEmpty`; the remote update always succeeds. -/
def envEmpty : SyncEnv :=
  { lister := fun _ _ => GetResult.found hpaEmpty, updateFails := fun _ => false }

/-- A resource with one cpu resource metric whose average-utilization
target is not set (nil pointer in the source API object). -/
def hpaNilTarget : HorizontalPodAutoscaler :=
  { ns := "default", name := "bad", annotations := none,
    spec := { metrics :=
      [{ resource := some { name := "cpu", target := { averageUtilization := none } } }] } }

/-- Cache holding `hpaNilTarget`. -/
def envNilTarget : SyncEnv :=
  { lister := fun _ _ => GetResult.found hpaNilTarget, updateFails := fun _ => false }

/-- A resource with one compute (cpu) metric with target average-utilization 80. -/
def hpa80 : HorizontalPodAutoscaler :=
  { ns := "default", name := "web", annotations := none,
    spec := { metrics :=
      [{ resource := some { name := "cpu", target := { averageUtilization := some 80 } } }] } }

/-- Cache holding `hpa80`. -/
def env80 : SyncEnv :=
  { lister := fun _ _ => GetResult.found hpa80, updateFails := fun _ => false }

/-- A cache in which every lookup reports not-found. -/
def envGone : SyncEnv :=
  { lister := fun _ _ => GetResult.notFound, updateFails := fun _ => false }

/-- C1 counterexample: on a resource with zero metrics the sync still
issues a remote update call (carrying the unmodified resource), so the
claim that no update call is performed is false. -/
theorem syncHPA_zero_metrics_cex :
    hpaEmpty.spec.metrics = [] ∧
    (syncHPA envEmpty "default/empty").updates = [hpaEmpty] ∧
    (syncHPA envEmpty "default/empty").updates ≠ [] :=
  ⟨rfl, rfl, by decide⟩

/-- C1 (amended): for every resource whose spec has zero metrics,
`syncHPA` computes no annotations and leaves the resource unchanged, but
still issues one remote update call (the update is unconditional); it
returns success exactly when that update succeeds. -/
theorem syncHPA_zero_metrics (env : SyncEnv) (key ns nm : String)
    (hpa : HorizontalPodAutoscaler)
    (hkey : splitMetaNamespaceKey key = Except.ok (ns, nm))
    (hget : env.lister ns nm = GetResult.found hpa)
    (hz : hpa.spec.metrics = []) :
    annotations hpa = Except.ok [] ∧
    (syncHPA env key).updates = [hpa] ∧
    ((syncHPA env key).ret = SyncRet.ok ↔ env.updateFails hpa = false) := by
  have hann : annotations hpa = Except.ok [] := by simp [annotations, hz]
  refine ⟨hann, ?_, ?_⟩
  · have := syncHPA_found_updates env key ns nm hpa [] hkey hget hann
    simpa using this
  · simp only [syncHPA, hkey, hget, hann]
    cases hf : env.updateFails hpa <;> simp [hf]

/-- C1 (amended) witness at the concrete zero-metric resource. -/
theorem syncHPA_zero_metrics_witness :
    annotations hpaEmpty = Except.ok [] ∧
    (syncHPA envEmpty "default/empty").updates = [hpaEmpty] ∧
    ((syncHPA envEmpty "default/empty").ret = SyncRet.ok ↔
      envEmpty.updateFails hpaEmpty = false) :=
  syncHPA_zero_metrics envEmpty "default/empty" "default" "empty" hpaEmpty rfl rfl rfl

/-- C2: a cpu resource metric without an average-utilization target is
not skipped; `annotations` dereferences the nil pointer, so the sync of
such a resource panics instead of succeeding. -/
theorem annotations_nil_target_panics :
    annotations hpaNilTarget = Except.error () ∧
    syncHPA envNilTarget "default/bad" = { ret := SyncRet.panicked, updates := [] } :=
  ⟨rfl, rfl⟩

/-- C5: when the lookup reports not-found, `syncHPA` returns success and
issues no remote update call. -/
theorem syncHPA_notFound (env : SyncEnv) (key ns nm : String)
    (hkey : splitMetaNamespaceKey key = Except.ok (ns, nm))
    (hget : env.lister ns nm = GetResult.notFound) :
    syncHPA env key = { ret := SyncRet.ok, updates := [] } := by
  simp [syncHPA, hkey, hget]

/-- C5 witness at a concrete absent key. -/
theorem syncHPA_notFound_witness :
    syncHPA envGone "default/gone" = { ret := SyncRet.ok, updates := [] } :=
  syncHPA_notFound envGone "default/gone" "default" "gone" rfl rfl

/-- C7: if the wait for the initial cache sync is not satisfied, `Run`
returns the explicit error and launches no worker loop. -/
theorem Run_cacheSyncFailed (workers : Nat) :
    Run workers false =
      { error := some "failed to wait for caches to sync", workersStarted := 0 } := rfl

/-- C7 witness at the default worker count. -/
theorem Run_cacheSyncFailed_witness :
    Run 5 false =
      { error := some "failed to wait for caches to sync", workersStarted := 0 } :=
  Run_cacheSyncFailed 5

/-- C3: the annotation computation maps cpu resource metrics to the key
`cpuTargetUtilization` and memory resource metrics to the key
`memoryTargetValue`, the value being the target average-utilization as a
base-10 decimal string (of the last metric of that kind), and the issued
update carries that binding. -/
theorem syncHPA_metric_annotation_keys (env : SyncEnv) (key ns nm : String)
    (hpa : HorizontalPodAutoscaler) (m : List (String × String))
    (hkey : splitMetaNamespaceKey key = Except.ok (ns, nm))
    (hget : env.lister ns nm = GetResult.found hpa)
    (hm : annotations hpa = Except.ok m) :
    (∀ u, lastAvg ResourceCPU hpa.spec.metrics = some u →
      ∃ upd, (syncHPA env key).updates = [upd] ∧
        annLookup (upd.annotations.getD []) "cpuTargetUtilization" = some (toString u)) ∧
    (∀ u, lastAvg ResourceMemory hpa.spec.metrics = some u →
      ∃ upd, (syncHPA env key).updates = [upd] ∧
        annLookup (upd.annotations.getD []) "memoryTargetValue" = some (toString u)) := by
  obtain ⟨h1, h2, h3, h4⟩ := annotations_spec hpa m hm
  have hupd := syncHPA_found_updates env key ns nm hpa m hkey hget hm
  constructor
  · intro u hu
    rw [hu] at h1
    have hne : m.length ≠ 0 := by
      intro hc
      rw [List.length_eq_zero.mp hc] at h1
      simp [annLookup] at h1
    rw [if_pos hne] at hupd
    refine ⟨_, hupd, ?_⟩
    simp only [Option.getD_some]
    rw [annLookup_mergeAnn m (hpa.annotations.getD []) "cpuTargetUtilization" h4, h1]
    rfl
  · intro u hu
    rw [hu] at h2
    have hne : m.length ≠ 0 := by
      intro hc
      rw [List.length_eq_zero.mp hc] at h2
      simp [annLookup] at h2
    rw [if_pos hne] at hupd
    refine ⟨_, hupd, ?_⟩
    simp only [Option.getD_some]
    rw [annLookup_mergeAnn m (hpa.annotations.getD []) "memoryTargetValue" h4, h2]
    rfl

/-- C3 witness: one compute metric with target 80 yields an update whose
annotation map contains `cpuTargetUtilization = "80"`. -/
theorem syncHPA_metric_annotation_keys_witness :
    ∃ upd, (syncHPA env80 "default/web").updates = [upd] ∧
      annLookup (upd.annotations.getD []) "cpuTargetUtilization" = some "80" :=
  (syncHPA_metric_annotation_keys env80 "default/web" "default" "web" hpa80
    [("cpuTargetUtilization", "80")] rfl rfl rfl).1 80 rfl

/-- C4: when a sync fails with the retry counter at the ceiling, the key
is forgotten (its counter resetting to zero) and the error is reported to
the process-wide sink, with no rate-limited requeue; a failure below the
ceiling re-adds the key rate-limited. -/
theorem handleErr_retry_ceiling :
    (∀ n, maxRetries ≤ n →
      handleErr true n = [QueueAction.forget, QueueAction.handleErrSink] ∧
      QueueAction.addRateLimited ∉ handleErr true n ∧
      counterAfter true n = 0) ∧
    (∀ n, n < maxRetries → handleErr true n = [QueueAction.addRateLimited]) := by
  constructor
  · intro n hn
    have hlt : ¬ n < maxRetries := not_lt.mpr hn
    refine ⟨?_, ?_, ?_⟩ <;> simp [handleErr, counterAfter, hlt]
  · intro n hn
    simp [handleErr, hn]

/-- C4 witness at counter 15 (the ceiling) and counter 3. -/
theorem handleErr_retry_ceiling_witness :
    handleErr true 15 = [QueueAction.forget, QueueAction.handleErrSink] ∧
    QueueAction.addRateLimited ∉ handleErr true 15 ∧
    counterAfter true 15 = 0 ∧
    handleErr true 3 = [QueueAction.addRateLimited] := by
  obtain ⟨ha, hb, hc⟩ := handleErr_retry_ceiling.1 15 (by decide)
  exact ⟨ha, hb, hc, handleErr_retry_ceiling.2 3 (by decide)⟩

/-- C6: when at least one annotation was computed, the update carries the
copy's annotation map with the computed set merged in (the map is created
if it was absent): keys outside the computed set keep their prior value,
computed keys get the computed value. -/
theorem syncHPA_merge_preserves (env : SyncEnv) (key ns nm : String)
    (hpa : HorizontalPodAutoscaler) (m : List (String × String))
    (hkey : splitMetaNamespaceKey key = Except.ok (ns, nm))
    (hget : env.lister ns nm = GetResult.found hpa)
    (hm : annotations hpa = Except.ok m) (hne : m ≠ []) :
    ∃ merged, (syncHPA env key).updates = [{ hpa with annotations := some merged }] ∧
      (∀ k, annLookup m k = none →
        annLookup merged k = annLookup (hpa.annotations.getD []) k) ∧
      (∀ k v, annLookup m k = some v → annLookup merged k = some v) := by
  obtain ⟨_, _, _, h4⟩ := annotations_spec hpa m hm
  have hl : m.length ≠ 0 := fun hc => hne (List.length_eq_zero.mp hc)
  have hupd := syncHPA_found_updates env key ns nm hpa m hkey hget hm
  rw [if_pos hl] at hupd
  refine ⟨mergeAnn (hpa.annotations.getD []) m, hupd, ?_, ?_⟩
  · intro k hk
    rw [annLookup_mergeAnn m (hpa.annotations.getD []) k h4, hk]
    rfl
  · intro k v hk
    rw [annLookup_mergeAnn m (hpa.annotations.getD []) k h4, hk]
    rfl

/-- A resource with a compute metric (target 70), a memory metric
(target 60) and a pre-existing unrelated annotation. -/
def hpa7660 : HorizontalPodAutoscaler :=
  { ns := "default", name := "app", annotations := some [("team", "a")],
    spec := { metrics :=
      [{ resource := some { name := "cpu", target := { averageUtilization := some 70 } } },
       { resource := some { name := "memory", target := { averageUtilization := some 60 } } }] } }

/-- Cache holding `hpa7660`. -/
def env7660 : SyncEnv :=
  { lister := fun _ _ => GetResult.found hpa7660, updateFails := fun _ => false }

/-- C6 witness: targets 70/60 produce `cpuTargetUtilization = "70"` and
`memoryTargetValue = "60"` while the unrelated key `team` is preserved. -/
theorem syncHPA_merge_preserves_witness :
    ∃ merged, (syncHPA env7660 "default/app").updates = [{ hpa7660 with annotations := some merged }] ∧
      annLookup merged "cpuTargetUtilization" = some "70" ∧
      annLookup merged "memoryTargetValue" = some "60" ∧
      annLookup merged "team" = some "a" := by
  obtain ⟨merged, h1, hnone, hsome⟩ := syncHPA_merge_preserves env7660 "default/app"
    "default" "app" hpa7660 [("memoryTargetValue", "60"), ("cpuTargetUtilization", "70")]
    rfl rfl rfl (by decide)
  exact ⟨merged, h1, hsome "cpuTargetUtilization" "70" rfl, hsome "memoryTargetValue" "60" rfl,
    (hnone "team" rfl).trans rfl⟩

theorem annLookup_mergeAnn_idem (base m : List (String × String)) (k : String)
    (h : keysNodupB m = true) :
    annLookup (mergeAnn (mergeAnn base m) m) k = annLookup (mergeAnn base m) k := by
  rw [annLookup_mergeAnn m (mergeAnn base m) k h, annLookup_mergeAnn m base k h]
  cases annLookup m k <;> rfl

/-- C8: syncing twice in succession on an unchanged resource with at
least one resource-type metric (the second lookup seeing the copy the
first sync submitted) issues a second, identical update call — same
namespace, name, spec and annotation values: the sync does not diff
against the previous value before writing. -/
theorem syncHPA_no_diff_idempotent (env env2 : SyncEnv) (key ns nm : String)
    (hpa u1 : HorizontalPodAutoscaler) (m : List (String × String))
    (hkey : splitMetaNamespaceKey key = Except.ok (ns, nm))
    (hget : env.lister ns nm = GetResult.found hpa)
    (hres : ∃ mt ∈ hpa.spec.metrics, mt.resource ≠ none)
    (hm : annotations hpa = Except.ok m)
    (h1 : (syncHPA env key).updates = [u1])
    (hget2 : env2.lister ns nm = GetResult.found u1) :
    ∃ u2, (syncHPA env2 key).updates = [u2] ∧
      u2.ns = u1.ns ∧ u2.name = u1.name ∧ u2.spec = u1.spec ∧
      (∀ k, annLookup (u2.annotations.getD []) k = annLookup (u1.annotations.getD []) k) := by
  obtain ⟨_, _, _, h4⟩ := annotations_spec hpa m hm
  have hupd := syncHPA_found_updates env key ns nm hpa m hkey hget hm
  rw [h1] at hupd
  have hu1 : u1 = if m.length ≠ 0 then
      { hpa with annotations := some (mergeAnn (hpa.annotations.getD []) m) } else hpa := by
    injection hupd
  by_cases hl : m.length ≠ 0
  · rw [if_pos hl] at hu1
    subst hu1
    have hm2 : annotations
        { hpa with annotations := some (mergeAnn (hpa.annotations.getD []) m) } =
        Except.ok m := hm
    have hupd2 := syncHPA_found_updates env2 key ns nm _ m hkey hget2 hm2
    rw [if_pos hl] at hupd2
    refine ⟨_, hupd2, rfl, rfl, rfl, ?_⟩
    intro k
    show annLookup (mergeAnn (mergeAnn (hpa.annotations.getD []) m) m) k =
      annLookup (mergeAnn (hpa.annotations.getD []) m) k
    exact annLookup_mergeAnn_idem (hpa.annotations.getD []) m k h4
  · rw [if_neg hl] at hu1
    subst hu1
    have hupd2 := syncHPA_found_updates env2 key ns nm u1 m hkey hget2 hm
    rw [if_neg hl] at hupd2
    exact ⟨u1, hupd2, rfl, rfl, rfl, fun _ => rfl⟩

/-- The copy the first sync of `hpa80` submits: annotations merged in. -/
def hpa80Updated : HorizontalPodAutoscaler :=
  { ns := "default", name := "web", annotations := some [("cpuTargetUtilization", "80")],
    spec := { metrics :=
      [{ resource := some { name := "cpu", target := { averageUtilization := some 80 } } }] } }

/-- Cache after the first sync of `hpa80`: it now holds the updated copy. -/
def env80b : SyncEnv :=
  { lister := fun _ _ => GetResult.found hpa80Updated, updateFails := fun _ => false }

/-- C8 witness: the second sync of the already-annotated resource issues
an update with the same annotation values. -/
theorem syncHPA_no_diff_idempotent_witness :
    ∃ u2, (syncHPA env80b "default/web").updates = [u2] ∧
      u2.ns = hpa80Updated.ns ∧ u2.name = hpa80Updated.name ∧
      u2.spec = hpa80Updated.spec ∧
      (∀ k, annLookup (u2.annotations.getD []) k =
        annLookup (hpa80Updated.annotations.getD []) k) :=
  syncHPA_no_diff_idempotent env80 env80b "default/web" "default" "web" hpa80 hpa80Updated
    [("cpuTargetUtilization", "80")] rfl rfl
    ⟨{ resource := some { name := "cpu", target := { averageUtilization := some 80 } } },
      List.mem_singleton.mpr rfl, fun h => Option.noConfusion h⟩
    rfl rfl rfl

/-- C9: when several resource metrics of the same kind are present, the
computed annotation value for that kind is the target average-utilization
of the last such metric in list order. -/
theorem annotations_last_wins (hpa : HorizontalPodAutoscaler) (m : List (String × String))
    (nmKind akey : String) (u : Int)
    (hkind : (nmKind = ResourceCPU ∧ akey = "cpuTargetUtilization") ∨
      (nmKind = ResourceMemory ∧ akey = "memoryTargetValue"))
    (hm : annotations hpa = Except.ok m)
    (hcount : 1 < hpa.spec.metrics.countP (isResourceKind nmKind))
    (hlast : lastAvg nmKind hpa.spec.metrics = some u) :
    annLookup m akey = some (toString u) := by
  obtain ⟨h1, h2, _, _⟩ := annotations_spec hpa m hm
  rcases hkind with ⟨hn, hk⟩ | ⟨hn, hk⟩ <;> subst hn <;> subst hk
  · rw [h1, hlast]; rfl
  · rw [h2, hlast]; rfl

/-- A resource with two compute metrics, targets 50 then 90. -/
def hpa5090 : HorizontalPodAutoscaler :=
  { ns := "default", name := "dup", annotations := none,
    spec := { metrics :=
      [{ resource := some { name := "cpu", target := { averageUtilization := some 50 } } },
       { resource := some { name := "cpu", target := { averageUtilization := some 90 } } }] } }

/-- C9 witness: two compute metrics (50 then 90) yield
`cpuTargetUtilization = "90"`. -/
theorem annotations_last_wins_witness :
    annLookup [("cpuTargetUtilization", "90")] "cpuTargetUtilization" = some "90" :=
  annotations_last_wins hpa5090 [("cpuTargetUtilization", "90")] ResourceCPU
    "cpuTargetUtilization" 90 (Or.inl ⟨rfl, rfl⟩) rfl (by decide) rfl

/-- C10: a key that cannot be split makes `syncHPA` return the split
error (with no update call), so the failure is handled by the retry
policy — rate-limited requeues below the 15-attempt ceiling — rather
than reported to the error sink and dropped immediately. -/
theorem syncHPA_malformed_key (env : SyncEnv) (key : String)
    (hkey : splitMetaNamespaceKey key = Except.error ()) :
    syncHPA env key = { ret := SyncRet.errSplit, updates := [] } ∧
    (∀ n, n < maxRetries → handleErr true n = [QueueAction.addRateLimited] ∧
      QueueAction.handleErrSink ∉ handleErr true n) := by
  refine ⟨by simp [syncHPA, hkey], ?_⟩
  intro n hn
  constructor <;> simp [handleErr, hn]

/-- C10 witness at the malformed key `a/b/c` with retry counter 0. -/
theorem syncHPA_malformed_key_witness :
    syncHPA envGone "a/b/c" = { ret := SyncRet.errSplit, updates := [] } ∧
    (handleErr true 0 = [QueueAction.addRateLimited] ∧
      QueueAction.handleErrSink ∉ handleErr true 0) := by
  obtain ⟨h1, h2⟩ := syncHPA_malformed_key envGone "a/b/c" rfl
  exact ⟨h1, h2 0 (by decide)⟩

end Hpa
